import Mathlib

/-!
Verification development for the broker-bot matching/offer/deal core
(`broker_bot.py`).  The Python source is shallowly embedded:

* `mask_contacts` — the regex `(\+?\d[\d\-\s]{6,}|@[\w_]{3,}|https?://\S+|t\.me/\S+)`
  (case-insensitive) applied by `re.sub` with the fixed placeholder
  `[[скрыто до согласования]]` is embedded as an executable left-to-right,
  leftmost-match, first-alternative, greedy scanner over `List Char`.
* `haversine_km` — embedded over `ℝ` (the idealisation of Python floats).
* The SQLite store is embedded as a `Store` structure; every DB helper of the
  source becomes a function threading the store explicitly (SELECT-only
  helpers return the store unchanged, mirroring that SQL SELECT does not
  write).  Outbound chat messages are external I/O and are not part of the
  store; operation results carry the data the source would render.
-/

/-! ### Character classes of the regex (`\d`, `\s`, `\w`, `[\d\-\s]`) -/

def isDigitC (c : Char) : Bool := c.isDigit

def isSpaceC (c : Char) : Bool := c.isWhitespace

/-- Class `\w` of Python's `re` on `str`: ASCII alphanumerics, underscore, and
word characters beyond ASCII (Cyrillic letters in particular). -/
def isWordC (c : Char) : Bool := c.isAlphanum || c == '_' || decide (127 < c.toNat)

/-- The class `[\d\-\s]` of the phone alternative. -/
def isPhoneC (c : Char) : Bool := isDigitC c || c == '-' || isSpaceC c

/-- Length of the maximal (greedy) prefix run of characters satisfying `p`. -/
def takeRun (p : Char → Bool) : List Char → Nat
  | [] => 0
  | c :: cs => if p c then takeRun p cs + 1 else 0

/-! ### The four alternatives of `PHONE_OR_LINK`, each tried at one position,
returning the length of the match (regex alternation takes the first
alternative that matches; each greedy tail quantifier is maximal). -/

/-- Alternative `\d[\d\-\s]{6,}`. -/
def phoneCore : List Char → Option Nat
  | [] => none
  | d :: ds =>
    if isDigitC d then
      if 6 ≤ takeRun isPhoneC ds then some (1 + takeRun isPhoneC ds) else none
    else none

/-- Alternative `\+?\d[\d\-\s]{6,}`. -/
def phoneAt : List Char → Option Nat
  | [] => none
  | c :: cs =>
    if c == '+' then (phoneCore cs).map (· + 1) else phoneCore (c :: cs)

/-- Alternative `@[\w_]{3,}`. -/
def handleAt : List Char → Option Nat
  | [] => none
  | c :: cs =>
    if c == '@' then
      if 3 ≤ takeRun isWordC cs then some (1 + takeRun isWordC cs) else none
    else none

/-- Case-insensitive literal prefix (the literal is given in lowercase);
returns the remainder after the literal. -/
def stripLitCI : List Char → List Char → Option (List Char)
  | [], s => some s
  | _ :: _, [] => none
  | a :: as, c :: cs => if c.toLower == a then stripLitCI as cs else none

/-- Suffix `://\S+` with the length of `://` included. -/
def urlTail (r : List Char) : Option Nat :=
  match stripLitCI [':', '/', '/'] r with
  | none => none
  | some r2 =>
    if 1 ≤ takeRun (fun c => !isSpaceC c) r2 then
      some (3 + takeRun (fun c => !isSpaceC c) r2)
    else none

/-- Alternative `https?://\S+` (greedy `s?` with backtracking). -/
def httpAt (s : List Char) : Option Nat :=
  match stripLitCI ['h', 't', 't', 'p'] s with
  | none => none
  | some r1 =>
    match r1 with
    | [] => none
    | c :: cs =>
      if c.toLower == 's' then
        match urlTail cs with
        | some k => some (5 + k)
        | none => (urlTail r1).map (4 + ·)
      else (urlTail r1).map (4 + ·)

/-- Alternative `t\.me/\S+`. -/
def tmeAt (s : List Char) : Option Nat :=
  match stripLitCI ['t', '.', 'm', 'e', '/'] s with
  | none => none
  | some r =>
    if 1 ≤ takeRun (fun c => !isSpaceC c) r then
      some (5 + takeRun (fun c => !isSpaceC c) r)
    else none

/-- One attempt of the whole pattern at the current position: alternatives in
source order, first match wins. -/
def matchAt (s : List Char) : Option Nat :=
  match phoneAt s with
  | some n => some n
  | none =>
    match handleAt s with
    | some n => some n
    | none =>
      match httpAt s with
      | some n => some n
      | none => tmeAt s

/-- The replacement text of `mask_contacts`. -/
def placeholderStr : String := "[[скрыто до согласования]]"

def PH : List Char := placeholderStr.data

theorem phoneCore_pos {s : List Char} {n : Nat} (h : phoneCore s = some n) : 1 ≤ n := by
  match s with
  | [] => simp [phoneCore] at h
  | d :: ds =>
    rw [phoneCore] at h
    by_cases hd : isDigitC d <;> simp [hd] at h
    omega

theorem phoneAt_pos {s : List Char} {n : Nat} (h : phoneAt s = some n) : 1 ≤ n := by
  match s with
  | [] => simp [phoneAt] at h
  | c :: cs =>
    rw [phoneAt] at h
    by_cases hc : c == '+' <;> simp only [hc, if_true, if_false, Bool.false_eq_true] at h
    · cases hp : phoneCore cs with
      | none => rw [hp] at h; simp at h
      | some m => rw [hp] at h; simp at h; have := phoneCore_pos hp; omega
    · exact phoneCore_pos h

theorem handleAt_pos {s : List Char} {n : Nat} (h : handleAt s = some n) : 1 ≤ n := by
  match s with
  | [] => simp [handleAt] at h
  | c :: cs =>
    rw [handleAt] at h
    by_cases hc : c == '@' <;> simp [hc] at h
    omega

theorem urlTail_pos {r : List Char} {n : Nat} (h : urlTail r = some n) : 1 ≤ n := by
  rw [urlTail] at h
  split at h
  · exact absurd h (by simp)
  · split at h
    · simp at h; omega
    · exact absurd h (by simp)

theorem httpAt_pos {s : List Char} {n : Nat} (h : httpAt s = some n) : 1 ≤ n := by
  rw [httpAt] at h
  split at h
  · exact absurd h (by simp)
  · split at h
    · exact absurd h (by simp)
    · split at h
      · split at h
        · simp at h; omega
        · cases hu : urlTail _ with
          | none => rw [hu] at h; simp at h
          | some m => rw [hu] at h; simp at h; omega
      · cases hu : urlTail _ with
        | none => rw [hu] at h; simp at h
        | some m => rw [hu] at h; simp at h; omega

theorem tmeAt_pos {s : List Char} {n : Nat} (h : tmeAt s = some n) : 1 ≤ n := by
  rw [tmeAt] at h
  split at h
  · exact absurd h (by simp)
  · split at h
    · simp at h; omega
    · exact absurd h (by simp)

theorem matchAt_pos {s : List Char} {n : Nat} (h : matchAt s = some n) : 1 ≤ n := by
  rw [matchAt] at h
  split at h
  next _ m heq => cases h; exact phoneAt_pos heq
  next =>
    split at h
    next _ m heq => cases h; exact handleAt_pos heq
    next =>
      split at h
      next _ m heq => cases h; exact httpAt_pos heq
      next => exact tmeAt_pos h

theorem matchAt_nil : matchAt [] = none := by
  simp [matchAt, phoneAt, handleAt, httpAt, tmeAt, stripLitCI]

/-! ### `re.sub`: scan left to right, replace each leftmost non-overlapping
match with the placeholder. Defined with a fuel argument (one unit per
consumed character) and then specialised to sufficient fuel. -/

def subAuxN : Nat → List Char → List Char
  | 0, _ => []
  | _ + 1, [] => []
  | f + 1, c :: cs =>
    match matchAt (c :: cs) with
    | some n => PH ++ subAuxN f ((c :: cs).drop n)
    | none => c :: subAuxN f cs

def subAux (s : List Char) : List Char := subAuxN s.length s

/-- Function `mask_contacts(text)` of the source (the `text or ""` guard for `None`
is outside the string domain of this embedding). -/
def mask_contacts (s : String) : String := ⟨subAux s.data⟩

theorem subAuxN_fuelEq :
    ∀ f g : Nat, ∀ s : List Char, s.length ≤ f → s.length ≤ g →
      subAuxN f s = subAuxN g s := by
  intro f
  induction f with
  | zero =>
    intro g s hf _
    have hs : s = [] := List.eq_nil_of_length_eq_zero (Nat.le_zero.mp hf)
    subst hs
    cases g <;> rfl
  | succ f ih =>
    intro g s hf hg
    match s with
    | [] => cases g <;> rfl
    | c :: cs =>
      match g with
      | 0 => exact absurd hg (by simp)
      | g + 1 =>
        rw [subAuxN, subAuxN]
        cases hm : matchAt (c :: cs) with
        | some n =>
          have hn := matchAt_pos hm
          dsimp only
          have hlen : ((c :: cs).drop n).length ≤ f := by
            simp only [List.length_drop, List.length_cons]
            simp only [List.length_cons] at hf
            omega
          have hlen2 : ((c :: cs).drop n).length ≤ g := by
            simp only [List.length_drop, List.length_cons]
            simp only [List.length_cons] at hg
            omega
          rw [ih g _ hlen hlen2]
        | none =>
          dsimp only
          have h1 : cs.length ≤ f := by simp at hf; omega
          have h2 : cs.length ≤ g := by simp at hg; omega
          rw [ih g cs h1 h2]

theorem subAux_nil : subAux [] = [] := rfl

theorem subAux_match {c : Char} {cs : List Char} {n : Nat}
    (h : matchAt (c :: cs) = some n) :
    subAux (c :: cs) = PH ++ subAux ((c :: cs).drop n) := by
  have hn := matchAt_pos h
  show subAuxN (c :: cs).length (c :: cs) = _
  rw [List.length_cons, subAuxN, h]
  dsimp only
  have hle : ((c :: cs).drop n).length ≤ cs.length := by
    simp only [List.length_drop, List.length_cons]; omega
  rw [subAuxN_fuelEq cs.length ((c :: cs).drop n).length _ hle (le_refl _)]
  rfl

theorem subAux_nomatch {c : Char} {cs : List Char}
    (h : matchAt (c :: cs) = none) :
    subAux (c :: cs) = c :: subAux cs := by
  show subAuxN (c :: cs).length (c :: cs) = _
  rw [List.length_cons, subAuxN, h]
  rfl

/-! ### Idempotence of the redaction scan.

The placeholder contains no character that can begin a match (`+`, a digit,
`@`, `h`/`H`, `t`/`T`), and its first character `[` belongs to none of the
character classes, so rescanning redacted text finds nothing new. -/

/-- Characters that cannot begin any alternative of the pattern. -/
def safeChar (c : Char) : Bool :=
  !(c == '+' || isDigitC c || c == '@' || c.toLower == 'h' || c.toLower == 't')

theorem phoneAt_none_of_safe {c : Char} {cs : List Char} (h : safeChar c = true) :
    phoneAt (c :: cs) = none := by
  simp only [safeChar, Bool.not_eq_true', Bool.or_eq_false_iff, beq_eq_false_iff_ne,
    ne_eq] at h
  obtain ⟨⟨⟨⟨h1, h2⟩, h3⟩, h4⟩, h5⟩ := h
  rw [phoneAt, if_neg (by simpa using h1), phoneCore, if_neg (by simp [h2])]

theorem handleAt_none_of_safe {c : Char} {cs : List Char} (h : safeChar c = true) :
    handleAt (c :: cs) = none := by
  simp only [safeChar, Bool.not_eq_true', Bool.or_eq_false_iff, beq_eq_false_iff_ne,
    ne_eq] at h
  obtain ⟨⟨⟨⟨h1, h2⟩, h3⟩, h4⟩, h5⟩ := h
  rw [handleAt, if_neg (by simpa using h3)]

theorem httpAt_none_of_safe {c : Char} {cs : List Char} (h : safeChar c = true) :
    httpAt (c :: cs) = none := by
  simp only [safeChar, Bool.not_eq_true', Bool.or_eq_false_iff, beq_eq_false_iff_ne,
    ne_eq] at h
  obtain ⟨⟨⟨⟨h1, h2⟩, h3⟩, h4⟩, h5⟩ := h
  rw [httpAt]
  have : stripLitCI ['h', 't', 't', 'p'] (c :: cs) = none := by
    rw [stripLitCI, if_neg (by simpa using h4)]
  rw [this]

theorem tmeAt_none_of_safe {c : Char} {cs : List Char} (h : safeChar c = true) :
    tmeAt (c :: cs) = none := by
  simp only [safeChar, Bool.not_eq_true', Bool.or_eq_false_iff, beq_eq_false_iff_ne,
    ne_eq] at h
  obtain ⟨⟨⟨⟨h1, h2⟩, h3⟩, h4⟩, h5⟩ := h
  rw [tmeAt]
  have : stripLitCI ['t', '.', 'm', 'e', '/'] (c :: cs) = none := by
    rw [stripLitCI, if_neg (by simpa using h5)]
  rw [this]

theorem matchAt_safe {c : Char} {cs : List Char} (h : safeChar c = true) :
    matchAt (c :: cs) = none := by
  rw [matchAt, phoneAt_none_of_safe h, handleAt_none_of_safe h,
    httpAt_none_of_safe h, tmeAt_none_of_safe h]

theorem matchAt_head {c : Char} {cs : List Char} {n : Nat} (h : matchAt (c :: cs) = some n) :
    c = '+' ∨ isDigitC c = true ∨ c = '@' ∨ c.toLower = 'h' ∨ c.toLower = 't' := by
  by_contra hcon
  push_neg at hcon
  obtain ⟨h1, h2, h3, h4, h5⟩ := hcon
  have hsafe : safeChar c = true := by
    simp [safeChar, h1, h2, h3, h4, h5]
  rw [matchAt_safe hsafe] at h
  exact absurd h (by simp)

theorem isSpaceC_cases {c : Char} (h : isSpaceC c = true) :
    c = ' ' ∨ c = '\t' ∨ c = '\r' ∨ c = '\n' := by
  simp [isSpaceC, Char.isWhitespace] at h
  tauto

theorem matchAt_nonspace {c : Char} {cs : List Char} {n : Nat}
    (h : matchAt (c :: cs) = some n) : isSpaceC c = false := by
  by_contra hsp
  rw [Bool.not_eq_false] at hsp
  rcases isSpaceC_cases hsp with rfl | rfl | rfl | rfl <;>
    rcases matchAt_head h with h1 | h1 | h1 | h1 | h1 <;> revert h1 <;> decide

theorem PH_cons : PH = '[' :: "[скрыто до согласования]]".data := rfl

theorem PH_safe : ∀ c ∈ PH, safeChar c = true := by decide

/-- Safe characters pass through the scan unchanged. -/
theorem subAux_append_safe :
    ∀ p : List Char, (∀ c ∈ p, safeChar c = true) →
      ∀ t : List Char, subAux (p ++ t) = p ++ subAux t := by
  intro p
  induction p with
  | nil => intro _ t; rfl
  | cons c p ih =>
    intro hp t
    have hc : safeChar c = true := hp c (by simp)
    rw [List.cons_append, subAux_nomatch (matchAt_safe hc),
      ih (fun x hx => hp x (by simp [hx])) t]
    rfl

theorem subAux_PH (t : List Char) : subAux (PH ++ t) = PH ++ subAux t :=
  subAux_append_safe PH PH_safe t

theorem takeRun_PH {p : Char → Bool} (hp : p '[' = false) (X : List Char) :
    takeRun p (PH ++ X) = 0 := by
  rw [PH_cons, List.cons_append, takeRun, if_neg (by simp [hp])]

theorem stripLit_PH {l : Char} {ls : List Char} (hl : l ≠ '[') (X : List Char) :
    stripLitCI (l :: ls) (PH ++ X) = none := by
  rw [PH_cons, List.cons_append, stripLitCI, if_neg (by simp; exact fun e => hl e.symm)]

/-- A greedy run over redacted text is never longer than over the original,
for any class excluding `[`. -/
theorem takeRun_subAux_le (p : Char → Bool) (hp : p '[' = false) :
    ∀ t : List Char, takeRun p (subAux t) ≤ takeRun p t := by
  intro t
  induction t with
  | nil => rw [subAux_nil]
  | cons c cs ih =>
    cases hm : matchAt (c :: cs) with
    | some n =>
      rw [subAux_match hm, takeRun_PH hp]
      exact Nat.zero_le _
    | none =>
      rw [subAux_nomatch hm, takeRun, takeRun]
      by_cases hc : p c
      · rw [if_pos hc, if_pos hc]; omega
      · rw [if_neg hc, if_neg hc]

/-- A case-insensitive literal that strips off redacted text also strips off
the original, leaving related remainders. -/
theorem stripLit_subAux :
    ∀ lit : List Char, (∀ l ∈ lit, l ≠ '[') →
      ∀ t r' : List Char, stripLitCI lit (subAux t) = some r' →
        ∃ r, stripLitCI lit t = some r ∧ r' = subAux r := by
  intro lit
  induction lit with
  | nil =>
    intro _ t r' h
    rw [stripLitCI] at h
    exact ⟨t, rfl, by cases h; rfl⟩
  | cons l ls ih =>
    intro hlit t r' h
    match t with
    | [] =>
      rw [subAux_nil, stripLitCI] at h
      exact absurd h (by simp)
    | c :: cs =>
      cases hm : matchAt (c :: cs) with
      | some n =>
        rw [subAux_match hm, stripLit_PH (hlit l (by simp)) _] at h
        exact absurd h (by simp)
      | none =>
        rw [subAux_nomatch hm, stripLitCI] at h
        by_cases hc : c.toLower == l
        · rw [if_pos hc] at h
          obtain ⟨r, hr1, hr2⟩ := ih (fun x hx => hlit x (by simp [hx])) cs r' h
          exact ⟨r, by rw [stripLitCI, if_pos hc]; exact hr1, hr2⟩
        · rw [if_neg hc] at h
          exact absurd h (by simp)

/-- If redacted text starts with a non-space character, so does the original. -/
theorem takeRun_nonspace_subAux {r : List Char}
    (h : 1 ≤ takeRun (fun c => !isSpaceC c) (subAux r)) :
    1 ≤ takeRun (fun c => !isSpaceC c) r := by
  match r with
  | [] => rw [subAux_nil] at h; exact absurd h (by simp [takeRun])
  | c :: cs =>
    cases hm : matchAt (c :: cs) with
    | some n =>
      have hns := matchAt_nonspace hm
      rw [takeRun, if_pos (by simp [hns])]
      omega
    | none =>
      rw [subAux_nomatch hm, takeRun] at h
      rw [takeRun]
      by_cases hc : isSpaceC c
      · rw [if_neg (by simp [hc])] at h
        exact absurd h (by simp)
      · rw [if_pos (by simp [hc])]
        omega

theorem matchAt_none_parts {s : List Char} (h : matchAt s = none) :
    phoneAt s = none ∧ handleAt s = none ∧ httpAt s = none ∧ tmeAt s = none := by
  rw [matchAt] at h
  cases hp : phoneAt s with
  | some n => simp only [hp] at h; exact absurd h (by simp)
  | none =>
    simp only [hp] at h
    cases hh : handleAt s with
    | some n => simp only [hh] at h; exact absurd h (by simp)
    | none =>
      simp only [hh] at h
      cases hu : httpAt s with
      | some n => simp only [hu] at h; exact absurd h (by simp)
      | none =>
        simp only [hu] at h
        exact ⟨rfl, rfl, rfl, h⟩

theorem matchAt_none_of_parts {s : List Char} (h1 : phoneAt s = none)
    (h2 : handleAt s = none) (h3 : httpAt s = none) (h4 : tmeAt s = none) :
    matchAt s = none := by
  rw [matchAt, h1, h2, h3, h4]

theorem phoneCore_cons_mono {c : Char} {cs : List Char}
    (h : (phoneCore (c :: subAux cs)).isSome) : (phoneCore (c :: cs)).isSome := by
  rw [phoneCore] at h ⊢
  by_cases hd : isDigitC c
  · rw [if_pos hd] at h ⊢
    by_cases h6 : 6 ≤ takeRun isPhoneC (subAux cs)
    · have := takeRun_subAux_le isPhoneC (by decide) cs
      rw [if_pos (by omega)]
      simp
    · rw [if_neg h6] at h
      simp at h
  · rw [if_neg hd] at h
    simp at h

theorem phoneCore_subAux {t : List Char} (h : (phoneCore (subAux t)).isSome) :
    (phoneCore t).isSome := by
  match t with
  | [] => rw [subAux_nil] at h; simp [phoneCore] at h
  | c :: cs =>
    cases hm : matchAt (c :: cs) with
    | some n =>
      rw [subAux_match hm, PH_cons, List.cons_append, phoneCore,
        if_neg (by decide)] at h
      simp at h
    | none =>
      rw [subAux_nomatch hm] at h
      exact phoneCore_cons_mono h

theorem phoneAt_subAux {c : Char} {cs : List Char}
    (h : (phoneAt (c :: subAux cs)).isSome) : (phoneAt (c :: cs)).isSome := by
  rw [phoneAt] at h ⊢
  by_cases hc : c == '+'
  · rw [if_pos hc] at h ⊢
    rw [Option.isSome_map'] at h ⊢
    exact phoneCore_subAux h
  · rw [if_neg hc] at h ⊢
    exact phoneCore_cons_mono h

theorem handleAt_subAux {c : Char} {cs : List Char}
    (h : (handleAt (c :: subAux cs)).isSome) : (handleAt (c :: cs)).isSome := by
  rw [handleAt] at h ⊢
  by_cases hc : c == '@'
  · rw [if_pos hc] at h ⊢
    by_cases h3 : 3 ≤ takeRun isWordC (subAux cs)
    · have := takeRun_subAux_le isWordC (by decide) cs
      rw [if_pos (by omega)]
      simp
    · rw [if_neg h3] at h
      simp at h
  · rw [if_neg hc] at h
    simp at h

theorem urlTail_subAux {r : List Char} (h : (urlTail (subAux r)).isSome) :
    (urlTail r).isSome := by
  rw [urlTail] at h
  cases hs : stripLitCI [':', '/', '/'] (subAux r) with
  | none => simp only [hs] at h; exact absurd h (by simp)
  | some r2 =>
    simp only [hs] at h
    obtain ⟨r0, hr0, hr2⟩ := stripLit_subAux [':', '/', '/'] (by decide) r r2 hs
    subst hr2
    rw [urlTail]
    simp only [hr0]
    by_cases h1 : 1 ≤ takeRun (fun c => !isSpaceC c) (subAux r0)
    · rw [if_pos (takeRun_nonspace_subAux h1)]
      simp
    · rw [if_neg h1] at h
      simp at h

theorem tmeAt_subAux {c : Char} {cs : List Char}
    (h : (tmeAt (c :: subAux cs)).isSome) : (tmeAt (c :: cs)).isSome := by
  by_cases hc : c.toLower == 't'
  · have e1 : stripLitCI ['t', '.', 'm', 'e', '/'] (c :: subAux cs)
        = stripLitCI ['.', 'm', 'e', '/'] (subAux cs) := by
      rw [stripLitCI, if_pos hc]
    rw [tmeAt, e1] at h
    cases hs : stripLitCI ['.', 'm', 'e', '/'] (subAux cs) with
    | none => simp only [hs] at h; exact absurd h (by simp)
    | some r' =>
      simp only [hs] at h
      obtain ⟨r, hr, he⟩ := stripLit_subAux ['.', 'm', 'e', '/'] (by decide) cs r' hs
      subst he
      have e2 : stripLitCI ['t', '.', 'm', 'e', '/'] (c :: cs) = some r := by
        rw [stripLitCI, if_pos hc]
        exact hr
      rw [tmeAt]
      simp only [e2]
      by_cases h1 : 1 ≤ takeRun (fun c => !isSpaceC c) (subAux r)
      · rw [if_pos (takeRun_nonspace_subAux h1)]
        simp
      · rw [if_neg h1] at h
        simp at h
  · have e1 : stripLitCI ['t', '.', 'm', 'e', '/'] (c :: subAux cs) = none := by
      rw [stripLitCI, if_neg hc]
    rw [tmeAt, e1] at h
    simp at h

theorem httpAt_subAux {c : Char} {cs : List Char}
    (h : (httpAt (c :: subAux cs)).isSome) : (httpAt (c :: cs)).isSome := by
  by_cases hc : c.toLower == 'h'
  case neg =>
    have e1 : stripLitCI ['h', 't', 't', 'p'] (c :: subAux cs) = none := by
      rw [stripLitCI, if_neg hc]
    rw [httpAt, e1] at h
    simp at h
  case pos =>
    have e1 : stripLitCI ['h', 't', 't', 'p'] (c :: subAux cs)
        = stripLitCI ['t', 't', 'p'] (subAux cs) := by
      rw [stripLitCI, if_pos hc]
    rw [httpAt, e1] at h
    cases hs : stripLitCI ['t', 't', 'p'] (subAux cs) with
    | none => simp only [hs] at h; exact absurd h (by simp)
    | some r1' =>
      simp only [hs] at h
      obtain ⟨r1, hr1, he⟩ := stripLit_subAux ['t', 't', 'p'] (by decide) cs r1' hs
      subst he
      have e2 : stripLitCI ['h', 't', 't', 'p'] (c :: cs) = some r1 := by
        rw [stripLitCI, if_pos hc]
        exact hr1
      rw [httpAt]
      simp only [e2]
      cases r1 with
      | nil => rw [subAux_nil] at h; exact absurd h (by simp)
      | cons c2 t1 =>
        cases hm : matchAt (c2 :: t1) with
        | some n =>
          rw [subAux_match hm, PH_cons, List.cons_append] at h
          have hns : (('[' : Char).toLower == 's') = false := by decide
          simp only [hns, Bool.false_eq_true, if_false] at h
          have hu : urlTail ('[' :: ("[скрыто до согласования]]".data
              ++ subAux ((c2 :: t1).drop n))) = none := by
            rw [urlTail, stripLitCI, if_neg (by decide)]
          rw [hu] at h
          exact absurd h (by simp)
        | none =>
          have hsub : subAux (c2 :: t1) = c2 :: subAux t1 := subAux_nomatch hm
          rw [hsub] at h
          by_cases hs2 : c2.toLower == 's'
          · simp only [hs2, if_true] at h ⊢
            cases hu1 : urlTail (subAux t1) with
            | some k =>
              have hsome : (urlTail t1).isSome := urlTail_subAux (by rw [hu1]; rfl)
              cases hu2 : urlTail t1 with
              | some k0 => simp
              | none => rw [hu2] at hsome; exact absurd hsome (by simp)
            | none =>
              simp only [hu1] at h
              rw [Option.isSome_map'] at h
              rw [← hsub] at h
              have hAll : (urlTail (c2 :: t1)).isSome := urlTail_subAux h
              cases hu2 : urlTail t1 with
              | some k0 => simp
              | none =>
                rw [Option.isSome_map']
                exact hAll
          · simp only [hs2, Bool.false_eq_true, if_false] at h ⊢
            rw [← hsub] at h
            rw [Option.isSome_map'] at h ⊢
            exact urlTail_subAux h

/-- Key lemma: a position with no match does not acquire one after the rest
of the text is redacted. -/
theorem matchAt_subAux_none {c : Char} {cs : List Char}
    (h : matchAt (c :: cs) = none) : matchAt (c :: subAux cs) = none := by
  obtain ⟨h1, h2, h3, h4⟩ := matchAt_none_parts h
  apply matchAt_none_of_parts
  · cases hp : phoneAt (c :: subAux cs) with
    | none => rfl
    | some n =>
      have hsome : (phoneAt (c :: subAux cs)).isSome = true := by rw [hp]; rfl
      have hv := phoneAt_subAux hsome
      rw [h1] at hv
      exact absurd hv (by simp)
  · cases hp : handleAt (c :: subAux cs) with
    | none => rfl
    | some n =>
      have hsome : (handleAt (c :: subAux cs)).isSome = true := by rw [hp]; rfl
      have hv := handleAt_subAux hsome
      rw [h2] at hv
      exact absurd hv (by simp)
  · cases hp : httpAt (c :: subAux cs) with
    | none => rfl
    | some n =>
      have hsome : (httpAt (c :: subAux cs)).isSome = true := by rw [hp]; rfl
      have hv := httpAt_subAux hsome
      rw [h3] at hv
      exact absurd hv (by simp)
  · cases hp : tmeAt (c :: subAux cs) with
    | none => rfl
    | some n =>
      have hsome : (tmeAt (c :: subAux cs)).isSome = true := by rw [hp]; rfl
      have hv := tmeAt_subAux hsome
      rw [h4] at hv
      exact absurd hv (by simp)

theorem subAux_idem_n : ∀ n : Nat, ∀ s : List Char, s.length ≤ n →
    subAux (subAux s) = subAux s := by
  intro n
  induction n with
  | zero =>
    intro s hs
    have hnil : s = [] := List.eq_nil_of_length_eq_zero (Nat.le_zero.mp hs)
    subst hnil
    rfl
  | succ n ih =>
    intro s hs
    match s with
    | [] => rfl
    | c :: cs =>
      cases hm : matchAt (c :: cs) with
      | some k =>
        have hk := matchAt_pos hm
        rw [subAux_match hm, subAux_PH]
        congr 1
        apply ih
        simp only [List.length_drop, List.length_cons]
        simp only [List.length_cons] at hs
        omega
      | none =>
        rw [subAux_nomatch hm]
        rw [subAux_nomatch (matchAt_subAux_none hm)]
        congr 1
        apply ih
        simp only [List.length_cons] at hs
        omega

theorem subAux_idem (s : List Char) : subAux (subAux s) = subAux s :=
  subAux_idem_n s.length s (le_refl _)

/-- C6: Contact redaction is idempotent: for every input string `x`,
`mask_contacts (mask_contacts x) = mask_contacts x` — applying the redaction
to already-redacted text changes nothing. -/
theorem C6_mask_contacts_idempotent (x : String) :
    mask_contacts (mask_contacts x) = mask_contacts x := by
  unfold mask_contacts
  exact congrArg String.mk (subAux_idem x.data)

/-! ### GeoMath: `haversine_km` over `ℝ` (the mathematical idealisation of
the source's float arithmetic). -/

/-- Function `math.radians`. -/
noncomputable def radians (x : ℝ) : ℝ := x * Real.pi / 180

/-- Function `haversine_km(lat1, lon1, lat2, lon2)` of the source. -/
noncomputable def haversine_km (lat1 lon1 lat2 lon2 : ℝ) : ℝ :=
  let R : ℝ := 6371.0
  let phi1 := radians lat1
  let phi2 := radians lat2
  let dphi := radians (lat2 - lat1)
  let dlambda := radians (lon2 - lon1)
  let a := Real.sin (dphi / 2) ^ 2 +
    Real.cos phi1 * Real.cos phi2 * Real.sin (dlambda / 2) ^ 2
  2 * R * Real.arcsin (Real.sqrt a)

theorem radians_zero : radians 0 = 0 := by
  simp [radians]

theorem haversine_self (lat lon : ℝ) : haversine_km lat lon lat lon = 0 := by
  simp [haversine_km, radians_zero, sub_self, Real.sqrt_zero, Real.arcsin_zero]

theorem haversine_comm (lat1 lon1 lat2 lon2 : ℝ) :
    haversine_km lat1 lon1 lat2 lon2 = haversine_km lat2 lon2 lat1 lon1 := by
  have key : ∀ x y : ℝ, Real.sin (radians (x - y) / 2) ^ 2
      = Real.sin (radians (y - x) / 2) ^ 2 := by
    intro x y
    have hxy : radians (x - y) / 2 = -(radians (y - x) / 2) := by
      unfold radians
      ring
    rw [hxy, Real.sin_neg, neg_sq]
  unfold haversine_km
  dsimp only
  rw [key lat2 lat1, key lon2 lon1,
    mul_comm (Real.cos (radians lat1)) (Real.cos (radians lat2))]

/-! ### Persistence store.

One structure per table of `CREATE_SQL` (the `created_at` timestamp columns
carry no behaviour touched by the modelled operations and are omitted).
Every DB helper of the source becomes a function on `Store`; helpers that
only SELECT return the store unchanged. -/

structure User where
  id : Nat
  tg_id : Int
  username : Option String
  role : Option String

structure Executor where
  id : Nat
  user_id : Option Nat
  pending_username : Option String
  direct_tg_id : Option Int
  categories : Option String
  city : Option String
  lat : Option ℝ
  lon : Option ℝ
  radius_km : ℝ
  is_owner : Bool
  is_active : Bool

structure Request where
  id : Nat
  client_user_id : Option Nat
  category : String
  description : String
  address_text : String
  city : String
  lat : ℝ
  lon : ℝ
  mode : String
  status : String

structure Offer where
  id : Nat
  request_id : Nat
  executor_id : Nat
  rate_type : String
  rate_value : ℝ
  comment : String
  status : String

structure Deal where
  id : Nat
  request_id : Nat
  offer_id : Nat
  contacts_released : Bool

structure Store where
  users : List User
  executors : List Executor
  requests : List Request
  offers : List Offer
  deals : List Deal
  prefer_owner_first : Bool
  next_deal_id : Nat

/-- Helper `settings_get` (SELECT of the singleton settings row, which the schema
always inserts). -/
def settings_get (s : Store) : Bool × Store := (s.prefer_owner_first, s)

/-- Helper `get_request` (SELECT only). -/
def get_request (s : Store) (request_id : Nat) : Option Request × Store :=
  (s.requests.find? (fun r => r.id == request_id), s)

/-- Helper `set_offer_status` (UPDATE offers SET status=? WHERE id=?). -/
def set_offer_status (s : Store) (offer_id : Nat) (status : String) : Store :=
  { s with offers := (s.offers.map
      (fun o => if o.id == offer_id then { o with status := status } else o)) }

/-- Helper `create_deal` (INSERT with `contacts_released = 0`, returning
`last_insert_rowid()`). -/
def create_deal (s : Store) (request_id offer_id : Nat) : Nat × Store :=
  (s.next_deal_id,
   { s with
       deals := s.deals ++ [{ id := s.next_deal_id, request_id := request_id,
                              offer_id := offer_id, contacts_released := false }],
       next_deal_id := s.next_deal_id + 1 })

/-- Helper `release_contacts` (UPDATE deals SET contacts_released=1 WHERE id=?). -/
def release_contacts (s : Store) (deal_id : Nat) : Store :=
  { s with deals := (s.deals.map
      (fun d => if d.id == deal_id then { d with contacts_released := true } else d)) }

/-- Helper `username_by_user_id` (the `if not user_id: return ""` guard is Python
truthiness, so id `0` also short-circuits; a found row yields
`row[0] or ""`). -/
def username_by_user_id (s : Store) (user_id : Option Nat) : String :=
  match user_id with
  | none => ""
  | some uid =>
    if uid == 0 then ""
    else
      match s.users.find? (fun u => u.id == uid) with
      | none => ""
      | some u => u.username.getD ""

/-! ### Candidate Matcher -/

/-- Python `cats.split(",")`: split on each comma, keeping empty pieces
(character-level split, equivalent for the one-character separator). -/
def splitCommaAux : List Char → List Char → List String
  | [], acc => [⟨acc.reverse⟩]
  | c :: cs, acc =>
    if c == ',' then ⟨acc.reverse⟩ :: splitCommaAux cs []
    else splitCommaAux cs (c :: acc)

def splitComma (s : String) : List String := splitCommaAux s.data []

def dropWhileSpace : List Char → List Char
  | [] => []
  | c :: cs => if c.isWhitespace then dropWhileSpace cs else c :: cs

/-- Python `c.strip()`: whitespace removed from both ends. -/
def trimStr (s : String) : String :=
  ⟨(dropWhileSpace ((dropWhileSpace s.data).reverse)).reverse⟩

/-- One row of the list `find_candidates` builds:
`(exec_id, user_id, pending_username, direct_tg_id, dist, is_owner, city)`. -/
structure Candidate where
  exec_id : Nat
  user_id : Option Nat
  pending_username : Option String
  direct_tg_id : Option Int
  dist : ℝ
  is_owner : Bool
  city : Option String

/-- The loop body of `find_candidates` for one active executor row:
skip on empty/NULL categories, on a category mismatch (comma-split,
stripped), on a missing location, and on distance beyond the radius
(`dist <= eradius` keeps the row). -/
noncomputable def candidateOf (cat : String) (rlat rlon : ℝ) (e : Executor) :
    Option Candidate :=
  match e.categories with
  | none => none
  | some cats =>
    if cats == "" then none
    else if cat ∉ (splitComma cats).map trimStr then none
    else
      match e.lat, e.lon with
      | some elat, some elon =>
        if haversine_km rlat rlon elat elon ≤ e.radius_km then
          some { exec_id := e.id, user_id := e.user_id,
                 pending_username := e.pending_username,
                 direct_tg_id := e.direct_tg_id,
                 dist := haversine_km rlat rlon elat elon,
                 is_owner := e.is_owner, city := e.city }
        else none
      | _, _ => none

/-- The unsorted match list (`SELECT ... WHERE is_active=1` then the loop). -/
noncomputable def candidate_matches (cat : String) (rlat rlon : ℝ)
    (rows : List Executor) : List Candidate :=
  (rows.filter (fun e => e.is_active)).filterMap (candidateOf cat rlat rlon)

/-- The composite sort key `(0 if (prefer_owner and x[5]) else 1, x[4])`,
primary component. -/
def sortKey (prefer : Bool) (c : Candidate) : Nat :=
  if prefer && c.is_owner then 0 else 1

/-- The `list.sort` comparator induced by the composite key (Python's sort is a
stable sort by the key's lexicographic order). -/
noncomputable def candLe (prefer : Bool) (a b : Candidate) : Bool :=
  decide (sortKey prefer a < sortKey prefer b ∨
    (sortKey prefer a = sortKey prefer b ∧ a.dist ≤ b.dist))

/-- Function `find_candidates`: request lookup (empty on a missing id), eligibility
filter, stable sort by the composite key; SELECT-only, so the store is
returned unchanged. -/
noncomputable def find_candidates (s : Store) (req_id : Nat) :
    List Candidate × Store :=
  match s.requests.find? (fun r => r.id == req_id) with
  | none => ([], s)
  | some r =>
    let matched := candidate_matches r.category r.lat r.lon s.executors
    let prefer_owner := (settings_get s).1
    (matched.mergeSort (candLe prefer_owner), s)

/-! ### Offer acceptance -/

/-- What `on_accept_offer` renders back to the accepting client: either the
not-found reply, or the deal id and resolved executor contact string. -/
inductive AcceptResult where
  | notFound : AcceptResult
  | accepted (deal_id : Nat) (contact : String) : AcceptResult
deriving DecidableEq

/-- The `LEFT JOIN` lookup at the head of `on_accept_offer`: a missing offer
yields no row; a missing executor yields a row with NULL executor fields. -/
def accept_lookup (s : Store) (offer_id : Nat) :
    Option (Nat × Nat × Option Nat × Option Int) :=
  match s.offers.find? (fun o => o.id == offer_id) with
  | none => none
  | some o =>
    match s.executors.find? (fun e => e.id == o.executor_id) with
    | none => some (o.request_id, o.executor_id, none, none)
    | some e => some (o.request_id, o.executor_id, e.user_id, e.direct_tg_id)

/-- Python truthiness of a nullable integer id. -/
def truthyNat : Option Nat → Bool
  | none => false
  | some n => n != 0

def truthyInt : Option Int → Bool
  | none => false
  | some n => n != 0

/-- The `tg://user?id=...` mention form (`f"tg://user?id={direct_tg_id}"`;
the id is truthy, hence non-NULL, wherever the source builds it). -/
def directMention : Option Int → String
  | some d => "tg://user?id=" ++ toString d
  | none => ""

/-- The inline contact resolution of `on_accept_offer`:
`if exec_user_id: ... elif direct_tg_id: ...` with an empty default. -/
def resolve_contact (s : Store) (exec_user_id : Option Nat)
    (direct_tg_id : Option Int) : String :=
  if truthyNat exec_user_id then
    let uname := username_by_user_id s exec_user_id
    if uname != "" then "@" ++ uname else ""
  else if truthyInt direct_tg_id then directMention direct_tg_id
  else ""

/-- Handler `on_accept_offer`: lookup, status update, deal creation, contact release,
contact resolution.  The chat replies and the best-effort executor
notification are external sends and do not touch the store. -/
def on_accept_offer (s : Store) (offer_id : Nat) : AcceptResult × Store :=
  match accept_lookup s offer_id with
  | none => (AcceptResult.notFound, s)
  | some (request_id, _exec_id, exec_user_id, direct_tg_id) =>
    let s1 := set_offer_status s offer_id "accepted"
    let p := create_deal s1 request_id offer_id
    let s3 := release_contacts p.2 p.1
    let contact := resolve_contact s3 exec_user_id direct_tg_id
    (AcceptResult.accepted p.1 contact, s3)

/-! ### Claim theorems -/

/-- C7: the distance function is symmetric and zero on the diagonal: for all
coordinate pairs, `haversine_km a b = haversine_km b a` and
`haversine_km a a = 0`; it is a total (pure) function of its arguments. -/
theorem C7_distance_symmetric_zero :
    (∀ lat1 lon1 lat2 lon2 : ℝ,
        haversine_km lat1 lon1 lat2 lon2 = haversine_km lat2 lon2 lat1 lon1) ∧
    (∀ lat lon : ℝ, haversine_km lat lon lat lon = 0) :=
  ⟨haversine_comm, haversine_self⟩

/-- C9: `find_candidates` has no side effects: it returns the store
(users, executors, requests, offers, deals, settings) unchanged. -/
theorem C9_find_candidates_no_side_effects (s : Store) (rid : Nat) :
    (find_candidates s rid).2 = s := by
  rw [find_candidates]
  cases s.requests.find? (fun r => r.id == rid) <;> rfl

/-- C8: for a request id not present in the store, `find_candidates` returns
the empty list (and, being a total function, raises nothing). -/
theorem C8_find_candidates_missing_request (s : Store) (rid : Nat)
    (h : s.requests.find? (fun r => r.id == rid) = none) :
    find_candidates s rid = ([], s) := by
  rw [find_candidates, h]

def reqW : Request :=
  { id := 2, client_user_id := some 1, category := "Экскаватор",
    description := "", address_text := "", city := "", lat := 0, lon := 0,
    mode := "auction", status := "published" }

def storeC8 : Store :=
  { users := [], executors := [], requests := [reqW], offers := [], deals := [],
    prefer_owner_first := true, next_deal_id := 1 }

theorem C8_witness :
    storeC8.requests.find? (fun r => r.id == 1) = none ∧
      find_candidates storeC8 1 = ([], storeC8) :=
  ⟨rfl, C8_find_candidates_missing_request storeC8 1 rfl⟩

theorem accept_lookup_found {s : Store} {oid : Nat} {o : Offer}
    (h : s.offers.find? (fun q => q.id == oid) = some o) :
    ∃ uid dtg, accept_lookup s oid = some (o.request_id, o.executor_id, uid, dtg) := by
  rw [accept_lookup, h]
  dsimp only
  cases s.executors.find? (fun e => e.id == o.executor_id) with
  | none => exact ⟨none, none, rfl⟩
  | some e => exact ⟨e.user_id, e.direct_tg_id, rfl⟩

/-- C1: for an offer id present in the store, Accept marks the offer
`accepted`, creates a Deal referencing `(request_id, offer_id)` with
`contacts_released` initially false, and then releases contacts on that same
Deal, so the Deal linked to the offer ends with `contacts_released = true`. -/
theorem C1_accept_marks_creates_and_releases (s : Store) (oid : Nat) (o : Offer)
    (h : s.offers.find? (fun q => q.id == oid) = some o) :
    (∀ o2 ∈ ((on_accept_offer s oid).2).offers, o2.id = oid → o2.status = "accepted") ∧
    ((create_deal (set_offer_status s oid "accepted") o.request_id oid).2.deals.any
       (fun d => d.id == s.next_deal_id && d.request_id == o.request_id &&
         d.offer_id == oid && d.contacts_released == false) = true) ∧
    (∃ d ∈ ((on_accept_offer s oid).2).deals,
       d.id = s.next_deal_id ∧ d.request_id = o.request_id ∧ d.offer_id = oid ∧
       d.contacts_released = true) := by
  obtain ⟨uid, dtg, hl⟩ := accept_lookup_found h
  refine ⟨?_, ?_, ?_⟩
  · intro o2 ho2 hid
    rw [on_accept_offer, hl] at ho2
    dsimp only [release_contacts, create_deal, set_offer_status] at ho2
    rw [List.mem_map] at ho2
    obtain ⟨o1, _, rfl⟩ := ho2
    by_cases h1 : o1.id == oid
    · simp only [h1, if_true]
    · simp only [h1, Bool.false_eq_true, if_false] at hid ⊢
      exact absurd (by simpa using hid) (by simpa using h1)
  · dsimp only [create_deal, set_offer_status]
    rw [List.any_append]
    simp
  · rw [on_accept_offer, hl]
    dsimp only [release_contacts, create_deal, set_offer_status]
    refine ⟨{ id := s.next_deal_id, request_id := o.request_id, offer_id := oid,
              contacts_released := true }, ?_, rfl, rfl, rfl, rfl⟩
    rw [List.mem_map]
    refine ⟨{ id := s.next_deal_id, request_id := o.request_id, offer_id := oid,
              contacts_released := false }, ?_, by simp⟩
    exact List.mem_append_right _ (by simp)

def offerW : Offer :=
  { id := 1, request_id := 7, executor_id := 1, rate_type := "hour",
    rate_value := 0, comment := "", status := "active" }

def storeA : Store :=
  { users := [], executors := [], requests := [], offers := [offerW], deals := [],
    prefer_owner_first := true, next_deal_id := 1 }

theorem C1_witness :
    storeA.offers.find? (fun q => q.id == 1) = some offerW ∧
    ((∀ o2 ∈ ((on_accept_offer storeA 1).2).offers, o2.id = 1 → o2.status = "accepted") ∧
     ((create_deal (set_offer_status storeA 1 "accepted") offerW.request_id 1).2.deals.any
        (fun d => d.id == storeA.next_deal_id && d.request_id == offerW.request_id &&
          d.offer_id == 1 && d.contacts_released == false) = true) ∧
     (∃ d ∈ ((on_accept_offer storeA 1).2).deals,
        d.id = storeA.next_deal_id ∧ d.request_id = offerW.request_id ∧ d.offer_id = 1 ∧
        d.contacts_released = true)) :=
  ⟨rfl, C1_accept_marks_creates_and_releases storeA 1 offerW rfl⟩

theorem accept_sets_offer_status {s : Store} {oid rid eid : Nat} {uid : Option Nat}
    {dtg : Option Int} (hl : accept_lookup s oid = some (rid, eid, uid, dtg)) :
    ∀ o2 ∈ ((on_accept_offer s oid).2).offers, o2.id = oid → o2.status = "accepted" := by
  intro o2 ho2 hid
  rw [on_accept_offer, hl] at ho2
  dsimp only [release_contacts, create_deal, set_offer_status] at ho2
  rw [List.mem_map] at ho2
  obtain ⟨o1, _, rfl⟩ := ho2
  by_cases h1 : o1.id == oid
  · simp only [h1, if_true]
  · simp only [h1, Bool.false_eq_true, if_false] at hid ⊢
    exact absurd (by simpa using hid) (by simpa using h1)

theorem accept_creates_released_deal {s : Store} {oid rid eid : Nat} {uid : Option Nat}
    {dtg : Option Int} (hl : accept_lookup s oid = some (rid, eid, uid, dtg)) :
    ∃ d ∈ ((on_accept_offer s oid).2).deals,
      d.id = s.next_deal_id ∧ d.request_id = rid ∧ d.offer_id = oid ∧
      d.contacts_released = true := by
  rw [on_accept_offer, hl]
  dsimp only [release_contacts, create_deal, set_offer_status]
  refine ⟨{ id := s.next_deal_id, request_id := rid, offer_id := oid,
            contacts_released := true }, ?_, rfl, rfl, rfl, rfl⟩
  rw [List.mem_map]
  refine ⟨{ id := s.next_deal_id, request_id := rid, offer_id := oid,
            contacts_released := false }, ?_, by simp⟩
  exact List.mem_append_right _ (by simp)

theorem on_accept_offer_fst {s : Store} {oid rid eid : Nat} {uid : Option Nat}
    {dtg : Option Int} (hl : accept_lookup s oid = some (rid, eid, uid, dtg)) :
    (on_accept_offer s oid).1
      = AcceptResult.accepted s.next_deal_id
          (resolve_contact ((on_accept_offer s oid).2) uid dtg) := by
  rw [on_accept_offer, hl]
  rfl

/-- C10: Accept reports "offer not found" only when the offer row is absent:
with the offer present but its executor row missing, the LEFT JOIN yields a
row with NULL executor fields and Accept proceeds — the offer becomes
`accepted`, a Deal is created and released, and the empty-placeholder
contact is returned. -/
theorem C10_accept_left_join_missing_executor (s : Store) (oid : Nat) (o : Offer)
    (ho : s.offers.find? (fun q => q.id == oid) = some o)
    (he : s.executors.find? (fun e => e.id == o.executor_id) = none) :
    (on_accept_offer s oid).1 = AcceptResult.accepted s.next_deal_id "" ∧
    (∀ o2 ∈ ((on_accept_offer s oid).2).offers, o2.id = oid → o2.status = "accepted") ∧
    (∃ d ∈ ((on_accept_offer s oid).2).deals,
       d.id = s.next_deal_id ∧ d.request_id = o.request_id ∧ d.offer_id = oid ∧
       d.contacts_released = true) := by
  have hl : accept_lookup s oid = some (o.request_id, o.executor_id, none, none) := by
    rw [accept_lookup, ho]
    dsimp only
    rw [he]
  refine ⟨?_, accept_sets_offer_status hl, accept_creates_released_deal hl⟩
  rw [on_accept_offer_fst hl]
  rfl

theorem C10_witness :
    (storeA.offers.find? (fun q => q.id == 1) = some offerW ∧
     storeA.executors.find? (fun e => e.id == offerW.executor_id) = none) ∧
    ((on_accept_offer storeA 1).1 = AcceptResult.accepted storeA.next_deal_id "" ∧
     (∀ o2 ∈ ((on_accept_offer storeA 1).2).offers, o2.id = 1 → o2.status = "accepted") ∧
     (∃ d ∈ ((on_accept_offer storeA 1).2).deals,
        d.id = storeA.next_deal_id ∧ d.request_id = offerW.request_id ∧ d.offer_id = 1 ∧
        d.contacts_released = true)) :=
  ⟨⟨rfl, rfl⟩, C10_accept_left_join_missing_executor storeA 1 offerW rfl rfl⟩

/-- C3 counterexample: performing Accept twice on the same offer id in a
store with one offer and no deal creates two Deal rows referencing that
offer — refuting "Accept twice does not produce a second Deal row". -/
theorem C3_counterexample_double_accept_two_deals :
    (((on_accept_offer (on_accept_offer storeA 1).2 1).2).deals.filter
      (fun d => d.offer_id == 1)).length = 2 := by
  rfl

theorem length_filter_map_release (K oid : Nat) (l : List Deal) :
    ((l.map (fun d => if d.id == K then { d with contacts_released := true } else d)).filter
      (fun d => d.offer_id == oid)).length
      = (l.filter (fun d => d.offer_id == oid)).length := by
  have hp : ∀ d : Deal,
      ((if d.id == K then ({ d with contacts_released := true } : Deal) else d).offer_id
        == oid) = (d.offer_id == oid) := by
    intro d
    by_cases hd : d.id == K
    · rw [if_pos hd]
    · rw [if_neg hd]
  induction l with
  | nil => rfl
  | cons d l ih =>
    rw [List.map_cons, List.filter_cons, List.filter_cons, hp d]
    by_cases ho : d.offer_id == oid
    · rw [if_pos ho, if_pos ho]
      simp only [List.length_cons, ih]
    · rw [if_neg ho, if_neg ho]
      exact ih

/-- C3 (amended): every Accept on an offer id present in the store appends
exactly one new Deal row referencing that offer; nothing deduplicates, so a
second Accept adds a second Deal row. -/
theorem C3_amended_accept_appends_one_deal (s : Store) (oid : Nat) (o : Offer)
    (h : s.offers.find? (fun q => q.id == oid) = some o) :
    (((on_accept_offer s oid).2).deals.filter (fun d => d.offer_id == oid)).length
      = (s.deals.filter (fun d => d.offer_id == oid)).length + 1 := by
  obtain ⟨uid, dtg, hl⟩ := accept_lookup_found h
  rw [on_accept_offer, hl]
  dsimp only [release_contacts, create_deal, set_offer_status]
  rw [List.map_append, List.filter_append, List.length_append,
    length_filter_map_release]
  simp

theorem C3_witness :
    storeA.offers.find? (fun q => q.id == 1) = some offerW ∧
    (((on_accept_offer storeA 1).2).deals.filter (fun d => d.offer_id == 1)).length
      = (storeA.deals.filter (fun d => d.offer_id == 1)).length + 1 :=
  ⟨rfl, C3_amended_accept_appends_one_deal storeA 1 offerW rfl⟩

def userC4 : User := { id := 1, tg_id := 10, username := none, role := none }

def execC4 : Executor :=
  { id := 1, user_id := some 1, pending_username := none, direct_tg_id := some 42,
    categories := none, city := none, lat := none, lon := none, radius_km := 0,
    is_owner := false, is_active := true }

def storeC4 : Store :=
  { users := [userC4], executors := [execC4], requests := [], offers := [offerW],
    deals := [], prefer_owner_first := true, next_deal_id := 1 }

/-- C4 counterexample: in `storeC4` the accepted offer's executor has a bound
user (`user_id = 1`) whose handle is NULL and a direct channel id (`42`);
Accept returns the empty contact, not the direct-channel mention form the
claim requires. -/
theorem C4_counterexample_bound_user_no_handle :
    (on_accept_offer storeC4 1).1 = AcceptResult.accepted 1 "" ∧
    AcceptResult.accepted 1 ""
      ≠ AcceptResult.accepted 1 ("tg://user?id=" ++ toString (42 : Int)) :=
  ⟨rfl, by decide⟩

/-- C4 (amended): the contact returned by Accept is resolved as: when the
executor row has a truthy bound user id, the contact is `@handle` if the
bound user's handle is non-empty and the empty placeholder otherwise — the
direct channel id is not consulted in that case; only when there is no
truthy bound user id does a truthy direct channel id produce the
`tg://user?id=...` mention form; otherwise the contact is empty. -/
theorem C4_amended_contact_preference (s : Store) (oid rid eid : Nat)
    (uid : Option Nat) (dtg : Option Int)
    (hl : accept_lookup s oid = some (rid, eid, uid, dtg)) :
    (on_accept_offer s oid).1 = AcceptResult.accepted s.next_deal_id
      (if truthyNat uid then
        (if username_by_user_id s uid != "" then "@" ++ username_by_user_id s uid else "")
       else if truthyInt dtg then directMention dtg
       else "") := by
  rw [on_accept_offer, hl]
  rfl

theorem C4_witness :
    accept_lookup storeC4 1 = some (7, 1, some 1, some 42) ∧
    (on_accept_offer storeC4 1).1 = AcceptResult.accepted storeC4.next_deal_id
      (if truthyNat (some 1) then
        (if username_by_user_id storeC4 (some 1) != ""
         then "@" ++ username_by_user_id storeC4 (some 1) else "")
       else if truthyInt (some 42) then directMention (some 42)
       else "") :=
  ⟨rfl, C4_amended_contact_preference storeC4 1 7 1 (some 1) (some 42) rfl⟩

theorem candLe_trans (prefer : Bool) (a b c : Candidate)
    (h1 : candLe prefer a b) (h2 : candLe prefer b c) : candLe prefer a c := by
  simp only [candLe, decide_eq_true_eq] at h1 h2 ⊢
  rcases h1 with h1 | ⟨h1e, h1d⟩ <;> rcases h2 with h2 | ⟨h2e, h2d⟩
  · exact Or.inl (h1.trans h2)
  · exact Or.inl (lt_of_lt_of_le h1 (le_of_eq h2e))
  · exact Or.inl (lt_of_le_of_lt (le_of_eq h1e) h2)
  · exact Or.inr ⟨h1e.trans h2e, le_trans h1d h2d⟩

theorem candLe_total (prefer : Bool) (a b : Candidate) :
    candLe prefer a b || candLe prefer b a := by
  simp only [candLe, Bool.or_eq_true, decide_eq_true_eq]
  rcases lt_trichotomy (sortKey prefer a) (sortKey prefer b) with h | h | h
  · exact Or.inl (Or.inl h)
  · rcases le_total a.dist b.dist with hd | hd
    · exact Or.inl (Or.inr ⟨h, hd⟩)
    · exact Or.inr (Or.inr ⟨h.symm, hd⟩)
  · exact Or.inr (Or.inl h)

/-- C2: with `prefer_owner_first` true, `find_candidates` puts every
owner-flagged candidate before every non-owner candidate, orders each
owner-flag group by ascending distance, and keeps the pre-sort order on
composite-key ties (stability). -/
theorem C2_owner_preference_order (s : Store) (rid : Nat) (r : Request)
    (hpref : s.prefer_owner_first = true)
    (hr : s.requests.find? (fun q => q.id == rid) = some r) :
    ((find_candidates s rid).1.Pairwise fun a b =>
        b.is_owner = true → a.is_owner = true) ∧
    ((find_candidates s rid).1.Pairwise fun a b =>
        a.is_owner = b.is_owner → a.dist ≤ b.dist) ∧
    (∀ a b : Candidate, a.is_owner = b.is_owner → a.dist = b.dist →
      List.Sublist [a, b] (candidate_matches r.category r.lat r.lon s.executors) →
      List.Sublist [a, b] ((find_candidates s rid).1)) := by
  have hres : (find_candidates s rid).1
      = (candidate_matches r.category r.lat r.lon s.executors).mergeSort (candLe true) := by
    rw [find_candidates, hr]
    dsimp only [settings_get]
    rw [hpref]
  rw [hres]
  have hs := List.sorted_mergeSort (candLe_trans true)
    (candLe_total true) (candidate_matches r.category r.lat r.lon s.executors)
  refine ⟨?_, ?_, ?_⟩
  · refine hs.imp ?_
    intro a b hab hb
    simp only [candLe, decide_eq_true_eq] at hab
    rcases hab with hlt | ⟨heq, _⟩
    · exfalso
      by_cases ha : a.is_owner <;> simp [sortKey, ha, hb] at hlt
    · by_cases ha : a.is_owner
      · exact ha
      · exfalso
        simp [sortKey, ha, hb] at heq
  · refine hs.imp ?_
    intro a b hab howner
    simp only [candLe, decide_eq_true_eq] at hab
    rcases hab with hlt | ⟨_, hd⟩
    · exfalso
      simp only [sortKey, howner] at hlt
      exact lt_irrefl _ hlt
    · exact hd
  · intro a b howner hdist hsub
    refine List.pair_sublist_mergeSort (candLe_trans true) (candLe_total true) ?_ hsub
    simp only [candLe, decide_eq_true_eq]
    exact Or.inr ⟨by simp [sortKey, howner], le_of_eq hdist⟩

theorem C2_witness :
    (storeC8.prefer_owner_first = true ∧
     storeC8.requests.find? (fun q => q.id == 2) = some reqW) ∧
    (((find_candidates storeC8 2).1.Pairwise fun a b =>
        b.is_owner = true → a.is_owner = true) ∧
     ((find_candidates storeC8 2).1.Pairwise fun a b =>
        a.is_owner = b.is_owner → a.dist ≤ b.dist) ∧
     (∀ a b : Candidate, a.is_owner = b.is_owner → a.dist = b.dist →
       List.Sublist [a, b] (candidate_matches reqW.category reqW.lat reqW.lon storeC8.executors) →
       List.Sublist [a, b] ((find_candidates storeC8 2).1))) :=
  ⟨⟨rfl, rfl⟩, C2_owner_preference_order storeC8 2 reqW rfl rfl⟩

theorem exec_eq_of_same_id {l : List Executor}
    (hp : l.Pairwise (fun a b => a.id ≠ b.id)) {a b : Executor}
    (ha : a ∈ l) (hb : b ∈ l) (hk : a.id = b.id) : a = b := by
  induction l with
  | nil => cases ha
  | cons x xs ih =>
    rw [List.pairwise_cons] at hp
    rcases List.mem_cons.mp ha with rfl | ha2
    · rcases List.mem_cons.mp hb with rfl | hb2
      · rfl
      · exact absurd hk (hp.1 b hb2)
    · rcases List.mem_cons.mp hb with rfl | hb2
      · exact absurd hk.symm (hp.1 a ha2)
      · exact ih hp.2 ha2 hb2

theorem candidateOf_exec_id {cat : String} {rlat rlon : ℝ} {e : Executor}
    {c : Candidate} (h : candidateOf cat rlat rlon e = some c) : c.exec_id = e.id := by
  rw [candidateOf] at h
  split at h
  · exact absurd h (by simp)
  · split at h
    · exact absurd h (by simp)
    · split at h
      · exact absurd h (by simp)
      · split at h
        · split at h
          · cases h
            rfl
          · exact absurd h (by simp)
        · exact absurd h (by simp)

/-- C5: the radius boundary of the matcher is inclusive: an active,
category-matching, located executor is returned when the haversine distance
equals its `radius_km` exactly, and never returned when the distance
strictly exceeds `radius_km`. -/
theorem C5_radius_boundary_inclusive (s : Store) (rid : Nat) (r : Request)
    (e : Executor) (elat elon : ℝ) (cats : String)
    (hr : s.requests.find? (fun q => q.id == rid) = some r)
    (he : e ∈ s.executors)
    (hact : e.is_active = true)
    (hcat : e.categories = some cats) (hcne : cats ≠ "")
    (hmem : r.category ∈ (splitComma cats).map trimStr)
    (hlat : e.lat = some elat) (hlon : e.lon = some elon)
    (hids : s.executors.Pairwise (fun e1 e2 => e1.id ≠ e2.id)) :
    (haversine_km r.lat r.lon elat elon = e.radius_km →
       ∃ c ∈ (find_candidates s rid).1, c.exec_id = e.id) ∧
    (e.radius_km < haversine_km r.lat r.lon elat elon →
       ∀ c ∈ (find_candidates s rid).1, c.exec_id ≠ e.id) := by
  have hres : (find_candidates s rid).1
      = (candidate_matches r.category r.lat r.lon s.executors).mergeSort
          (candLe (settings_get s).1) := by
    rw [find_candidates, hr]
  constructor
  · intro hd
    have hco : candidateOf r.category r.lat r.lon e
        = some { exec_id := e.id, user_id := e.user_id,
                 pending_username := e.pending_username,
                 direct_tg_id := e.direct_tg_id,
                 dist := haversine_km r.lat r.lon elat elon,
                 is_owner := e.is_owner, city := e.city } := by
      rw [candidateOf, hcat]
      dsimp only
      rw [if_neg (by simpa using hcne), if_neg (fun hn => hn hmem), hlat, hlon]
      dsimp only
      rw [if_pos (le_of_eq hd)]
    have hmm : { exec_id := e.id, user_id := e.user_id,
                 pending_username := e.pending_username,
                 direct_tg_id := e.direct_tg_id,
                 dist := haversine_km r.lat r.lon elat elon,
                 is_owner := e.is_owner, city := e.city }
        ∈ candidate_matches r.category r.lat r.lon s.executors := by
      rw [candidate_matches]
      exact List.mem_filterMap.mpr ⟨e, List.mem_filter.mpr ⟨he, hact⟩, hco⟩
    rw [hres]
    exact ⟨_, List.mem_mergeSort.mpr hmm, rfl⟩
  · intro hgt c hc hcid
    rw [hres] at hc
    have hmm := List.mem_mergeSort.mp hc
    rw [candidate_matches] at hmm
    obtain ⟨e2, he2f, hce2⟩ := List.mem_filterMap.mp hmm
    have he2 : e2 ∈ s.executors := (List.mem_filter.mp he2f).1
    have hid2 : c.exec_id = e2.id := candidateOf_exec_id hce2
    have hee : e2 = e := exec_eq_of_same_id hids he2 he (hid2 ▸ hcid)
    subst hee
    rw [candidateOf, hcat] at hce2
    dsimp only at hce2
    rw [if_neg (by simpa using hcne), if_neg (fun hn => hn hmem), hlat, hlon] at hce2
    dsimp only at hce2
    rw [if_neg (not_le.mpr hgt)] at hce2
    exact absurd hce2 (by simp)

def execC5 : Executor :=
  { id := 3, user_id := none, pending_username := some "w", direct_tg_id := none,
    categories := some "Экскаватор", city := some "", lat := some 0, lon := some 0,
    radius_km := 0, is_owner := true, is_active := true }

def storeC5 : Store :=
  { users := [], executors := [execC5], requests := [reqW], offers := [], deals := [],
    prefer_owner_first := true, next_deal_id := 1 }

theorem C5_witness :
    (storeC5.requests.find? (fun q => q.id == 2) = some reqW ∧
     execC5 ∈ storeC5.executors ∧
     execC5.is_active = true ∧
     execC5.categories = some "Экскаватор" ∧
     ("Экскаватор" : String) ≠ "" ∧
     reqW.category ∈ (splitComma "Экскаватор").map trimStr ∧
     execC5.lat = some 0 ∧ execC5.lon = some 0 ∧
     storeC5.executors.Pairwise (fun e1 e2 => e1.id ≠ e2.id)) ∧
    ((haversine_km reqW.lat reqW.lon 0 0 = execC5.radius_km →
       ∃ c ∈ (find_candidates storeC5 2).1, c.exec_id = execC5.id) ∧
     (execC5.radius_km < haversine_km reqW.lat reqW.lon 0 0 →
       ∀ c ∈ (find_candidates storeC5 2).1, c.exec_id ≠ execC5.id)) :=
  ⟨⟨rfl, by simp [storeC5], rfl, rfl, by decide, by decide, rfl, rfl,
     by simp [storeC5]⟩,
   C5_radius_boundary_inclusive storeC5 2 reqW execC5 0 0 "Экскаватор"
     rfl (by simp [storeC5]) rfl rfl (by decide) (by decide) rfl rfl
     (by simp [storeC5])⟩
